import Mathlib

/-!
Verification of the maestro query-processing pipeline (semantic cache,
query router, orchestrator) against its natural-language specification.

Modelling conventions:
* Python floats are modelled as rationals (`Rat`); the claims under study are
  about control flow and exact arithmetic structure, not float rounding.
* The embedding model (`sentence_transformers`) is an external black box; it
  is abstracted by a similarity function `sim : String → String → Rat` giving
  the cosine similarity of the embeddings of two query strings.  A stored
  `CacheEntry` always holds the embedding of its own `query` string, so the
  similarity between a lookup embedding and a stored embedding is a function
  of the two query texts; the explicit `query_embedding` field is therefore
  not materialised.
* A Python `dict` is an insertion-ordered association list with unique keys:
  assignment to an existing key replaces the value in place (keeping its
  position), assignment to a fresh key appends, and iteration follows the
  list order.
* Wall-clock time (`time.time()`) is passed in explicitly as a rational.
-/

namespace Maestro

/-- A document as returned by the vector-DB search collaborator
(`adapters/vector_db.py` result shape: id, title, category, content,
similarity_score). -/
structure Doc where
  id : String
  title : String
  category : Option String
  content : String
  similarity_score : Rat
  deriving DecidableEq, Repr

/-- A document serialized for a JSON response (`MaestroOrchestrator._serialize_doc`). -/
structure SerDoc where
  id : String
  title : String
  category : Option String
  similarity_score : Rat
  content_preview : String
  deriving DecidableEq, Repr

/-- A value stored in a Python result dictionary. -/
inductive RVal where
  | s (v : String)
  | q (v : Rat)
  | n (v : Nat)
  | docs (v : List SerDoc)
  deriving DecidableEq, Repr

/-- A result dictionary, as returned by `process_query` / `SemanticCache.get`. -/
abbrev ResultMap := List (String × RVal)

/-- Source `core/cache.py` `CacheEntry` (the `query_embedding` field is abstracted away,
see the module docstring). -/
structure CacheEntry where
  query : String
  answer : String
  documents : List SerDoc
  confidence : Rat
  cost : Rat
  cached_at : Rat
  strategy : String
  complexity : String
  hit_count : Nat := 0
  ttl : Int := 3600
  deriving DecidableEq, Repr

/-- The mutable state of `core/cache.py` `SemanticCache`: the insertion-ordered
dict of entries, the configuration, and the stats counters. -/
structure CacheState where
  cache : List (String × CacheEntry)
  similarity_threshold : Rat
  max_size : Nat
  total_queries : Nat
  cache_hits : Nat
  cache_misses : Nat
  deriving DecidableEq, Repr

/-- Constructor `SemanticCache.__init__(similarity_threshold, max_size)`. -/
def mkCache (similarity_threshold : Rat := 88/100) (max_size : Nat := 1000) : CacheState :=
  { cache := [], similarity_threshold := similarity_threshold, max_size := max_size,
    total_queries := 0, cache_hits := 0, cache_misses := 0 }

/-- Python dict assignment `d[k] = v`: replace in place if the key is present,
otherwise append. -/
def dictSet (m : List (String × CacheEntry)) (k : String) (v : CacheEntry) :
    List (String × CacheEntry) :=
  if m.any (fun p => p.1 = k) then
    m.map (fun p => if p.1 = k then (k, v) else p)
  else
    m ++ [(k, v)]

/-- Python dict deletion `del d[k]`. -/
def dictDel (m : List (String × CacheEntry)) (k : String) : List (String × CacheEntry) :=
  m.filter (fun p => p.1 ≠ k)

/-- The best-match scan of `SemanticCache.get`: iterate over the cached entries
in dict order, tracking the entry of strictly greatest similarity, starting
from `best_match = None`, `best_similarity = 0.0`. -/
def bestMatchAux (sim : String → String → Rat) (q : String) :
    Option CacheEntry × Rat → List (String × CacheEntry) → Option CacheEntry × Rat
  | acc, [] => acc
  | (best, bs), (_, e) :: rest =>
      let s := sim q e.query
      if s > bs then bestMatchAux sim q (some e, s) rest
      else bestMatchAux sim q (best, bs) rest

/-- The whole best-match scan, from the initial accumulator. -/
def bestMatch (sim : String → String → Rat) (q : String)
    (m : List (String × CacheEntry)) : Option CacheEntry × Rat :=
  bestMatchAux sim q (none, 0) m

/-- The result dict built on a (non-expired) cache hit, from the matched entry
after its `hit_count` was incremented. -/
def hitResult (e : CacheEntry) (bs : Rat) : ResultMap :=
  [("answer", .s e.answer), ("documents", .docs e.documents),
   ("confidence", .q e.confidence), ("cost", .q (1/10000)),
   ("latency_ms", .q 5), ("source", .s "CACHE"),
   ("strategy", .s e.strategy), ("complexity", .s e.complexity),
   ("cache_similarity", .q bs), ("original_query", .s e.query),
   ("hit_count", .n e.hit_count)]

namespace SemanticCache

/-- Lookup `SemanticCache.get(query)` at wall-clock time `now`.  Mirrors the source:
increment `total_queries`; scan for the best match; if one exists with
similarity ≥ threshold, increment `cache_hits` and the matched entry's
`hit_count` (a mutation of the shared entry object, hence reflected in the
dict), then check the TTL: if expired, delete the entry, increment
`cache_misses` and miss; otherwise return the hit dict.  If no match meets
the threshold, increment `cache_misses` and miss. -/
def get (sim : String → String → Rat) (now : Rat) (s : CacheState) (q : String) :
    Option ResultMap × CacheState :=
  let s1 : CacheState := { s with total_queries := s.total_queries + 1 }
  match bestMatch sim q s1.cache with
  | (some bm, bs) =>
      if bs ≥ s1.similarity_threshold then
        let bm' : CacheEntry := { bm with hit_count := bm.hit_count + 1 }
        let s2 : CacheState :=
          { s1 with cache_hits := s1.cache_hits + 1, cache := dictSet s1.cache bm.query bm' }
        if now - bm'.cached_at > (bm'.ttl : Rat) then
          (none, { s2 with cache := dictDel s2.cache bm.query,
                           cache_misses := s2.cache_misses + 1 })
        else
          (some (hitResult bm' bs), s2)
      else
        (none, { s1 with cache_misses := s1.cache_misses + 1 })
  | (none, _) =>
      (none, { s1 with cache_misses := s1.cache_misses + 1 })

/-- The key of the entry with the oldest `cached_at`, scanning in dict order;
`min(self.cache.keys(), key=lambda k: self.cache[k].cached_at)` (first key
attaining the minimum). -/
def oldestKeyAux : String × Rat → List (String × CacheEntry) → String
  | (k, _), [] => k
  | (k, t), (k', e) :: rest =>
      if e.cached_at < t then oldestKeyAux (k', e.cached_at) rest
      else oldestKeyAux (k, t) rest

/-- Python `min` over the dict keys by `cached_at`.  (In Python, `min` over an empty
dict raises; that corner is reachable only with `max_size = 0`, and the
theorems below assume `1 ≤ max_size`.) -/
def oldestKey : List (String × CacheEntry) → String
  | [] => ""
  | (k, e) :: rest => oldestKeyAux (k, e.cached_at) rest

/-- Store `SemanticCache.set(query, answer, documents, confidence, cost, strategy,
complexity, ttl)` at wall-clock time `now`.  Mirrors the source: refuse when
`confidence < 0.85`; otherwise, if `len(cache) >= max_size`, delete the
oldest-`cached_at` entry; then store the new entry under `query`. -/
def set (now : Rat) (s : CacheState) (query answer : String) (documents : List SerDoc)
    (confidence cost : Rat) (strategy complexity : String) (ttl : Int := 3600) :
    CacheState :=
  if confidence < 85/100 then s
  else
    let c0 := if s.cache.length ≥ s.max_size then dictDel s.cache (oldestKey s.cache)
              else s.cache
    let entry : CacheEntry :=
      { query := query, answer := answer, documents := documents,
        confidence := confidence, cost := cost, cached_at := now,
        strategy := strategy, complexity := complexity, ttl := ttl }
    { s with cache := dictSet c0 query entry }

/-- The dictionary returned by `SemanticCache.get_stats`. -/
structure Stats where
  total_queries : Nat
  cache_hits : Nat
  cache_misses : Nat
  hit_rate : Rat
  cache_size : Nat
  deriving DecidableEq, Repr

/-- Statistics `SemanticCache.get_stats()`. -/
def get_stats (s : CacheState) : Stats :=
  { total_queries := s.total_queries, cache_hits := s.cache_hits,
    cache_misses := s.cache_misses,
    hit_rate := if 0 < s.total_queries then (s.cache_hits : Rat) / (s.total_queries : Rat) else 0,
    cache_size := s.cache.length }

/-- Reset `SemanticCache.clear()`. -/
def clear (s : CacheState) : CacheState :=
  { s with cache := [], total_queries := 0, cache_hits := 0, cache_misses := 0 }

end SemanticCache

/-- Scoring `MaestroOrchestrator._calculate_confidence(documents)`: 0 for an empty
list; otherwise scale the top similarity, and boost by 5% when several
documents agree. -/
def calculate_confidence (documents : List Doc) : Rat :=
  match documents with
  | [] => 0
  | d :: rest =>
      let scores := (d :: rest).map (fun x => x.similarity_score)
      let top_score := d.similarity_score
      let confidence := min ((top_score + 3/20) * 2) 1
      if scores.length > 1 then
        let avg_score := (scores.take 3).sum / ((min 3 scores.length : Nat) : Rat)
        if avg_score > 7/20 then min (confidence * (21/20)) 1 else confidence
      else confidence

/-- The confidence computation as worded by the specification: the confidence
equals `min((topScore + 0.15) * 2.0, 1.0)`, further multiplied by 1.05 and
re-capped at 1.0 exactly when at least two documents are present and the mean
similarity of the top three (or all, if fewer) documents exceeds 0.35; and the
confidence of an empty document list is 0. -/
def specConfidence (documents : List Doc) : Rat :=
  if documents.isEmpty then 0
  else
    let scores := documents.map (fun x => x.similarity_score)
    let base := min ((scores.headD 0 + 3/20) * 2) 1
    let meanTop := (scores.take 3).sum / ((min 3 documents.length : Nat) : Rat)
    if 2 ≤ documents.length ∧ meanTop > 7/20 then min (base * (21/20)) 1 else base

/-! Basic facts about the cache dictionary operations. -/


/-- Python dict read `d[k]` (as an `Option`, i.e. `d.get(k)`): first pair with
the key wins; keys are unique in a well-formed dict anyway. -/
def dictGet : List (String × CacheEntry) → String → Option CacheEntry
  | [], _ => none
  | p :: rest, k => if p.1 = k then some p.2 else dictGet rest k

/-- The similarity function used by concrete test states: identical strings
have cosine similarity 1, distinct strings 0. -/
def simExact : String → String → Rat := fun a b => if a = b then 1 else 0

/-- A cache entry for the query "a", stored at time 0 with `ttl = 1`. -/
def oneEntry : CacheEntry :=
  { query := "a", answer := "ans", documents := [], confidence := 9/10,
    cost := 1/100, cached_at := 0, strategy := "fast", complexity := "simple",
    hit_count := 0, ttl := 1 }

/-- A one-entry cache whose entry "a" was stored at time 0 with `ttl = 1`. -/
def oneEntryState : CacheState :=
  { mkCache (88/100) 1000 with cache := [("a", oneEntry)] }

/-- The cache entry created by `insertAll` for query `q` at time `t`. -/
def newEntry (q : String) (t : Rat) : CacheEntry :=
  { query := q, answer := "answer", documents := [], confidence := 1, cost := 1/100,
    cached_at := t, strategy := "fast", complexity := "simple", ttl := 3600 }

/-- Insert a sequence of distinct high-confidence entries at strictly
increasing times (1 second apart), via the public `set` operation. -/
def insertAll (t : Rat) (qs : List String) (s : CacheState) : CacheState :=
  match qs with
  | [] => s
  | q :: rest =>
      insertAll (t + 1) rest
        (SemanticCache.set t s q "answer" [] 1 (1/100) "fast" "simple" 3600)

/-- The capacity check of `set`: evict the oldest entry when the cache is at
or above `max_size`. -/
def evictIfFull (s : CacheState) : List (String × CacheEntry) :=
  if s.cache.length ≥ s.max_size then dictDel s.cache (SemanticCache.oldestKey s.cache)
  else s.cache

/-- A full two-entry cache (max_size = 2): "a" stored at time 0, "b" at time 1. -/
def entryA : CacheEntry :=
  { query := "a", answer := "ansA", documents := [], confidence := 9/10, cost := 1/100,
    cached_at := 0, strategy := "fast", complexity := "simple" }

/-- The second entry of `fullState`. -/
def entryB : CacheEntry :=
  { query := "b", answer := "ansB", documents := [], confidence := 9/10, cost := 1/100,
    cached_at := 1, strategy := "fast", complexity := "simple" }

/-- A cache at capacity: `max_size = 2` with both slots filled. -/
def fullState : CacheState :=
  { mkCache (88/100) 2 with cache := [("a", entryA), ("b", entryB)] }

/-! Router: `core/router.py`.  `gemini_available` is set to False in
`QueryRouter.__init__`, so classification always takes the rule-based path;
the Gemini branch is dead code and is not modelled.  Python string methods
are modelled at the character-list level (`String.data`), with `str.lower()`
restricted to ASCII (the keyword tables are ASCII). -/


/-- Source `core/router.py` `RetrievalStrategy`. -/
structure RetrievalStrategy where
  name : String
  complexity : String
  top_k : Nat
  estimated_cost : Rat
  requires_verification : Bool
  max_latency_ms : Nat
  deriving DecidableEq, Repr

/-- Table entry `STRATEGIES["fast"]`. -/
def fastStrategy : RetrievalStrategy :=
  { name := "fast", complexity := "simple", top_k := 2, estimated_cost := 3/1000,
    requires_verification := false, max_latency_ms := 200 }

/-- Table entry `STRATEGIES["balanced"]`. -/
def balancedStrategy : RetrievalStrategy :=
  { name := "balanced", complexity := "moderate", top_k := 5, estimated_cost := 7/1000,
    requires_verification := false, max_latency_ms := 500 }

/-- Table entry `STRATEGIES["comprehensive"]`. -/
def comprehensiveStrategy : RetrievalStrategy :=
  { name := "comprehensive", complexity := "complex", top_k := 10,
    estimated_cost := 18/1000, requires_verification := true, max_latency_ms := 1000 }

/-- Lookup in the `STRATEGIES` dict. -/
def strategyTableGet (n : String) : Option RetrievalStrategy :=
  if n = "fast" then some fastStrategy
  else if n = "balanced" then some balancedStrategy
  else if n = "comprehensive" then some comprehensiveStrategy
  else none

/-- ASCII model of `str.lower()` on one character. -/
def pyLowerChar (c : Char) : Char :=
  if 65 ≤ c.toNat ∧ c.toNat ≤ 90 then Char.ofNat (c.toNat + 32) else c

/-- ASCII model of `str.lower()`. -/
def pyLower (l : List Char) : List Char := l.map pyLowerChar

/-- Python whitespace (the characters `str.split()` and `str.strip()` treat
as separators). -/
def isPySpace (c : Char) : Bool :=
  c.toNat = 32 || c.toNat = 9 || c.toNat = 10 || c.toNat = 13 || c.toNat = 11 || c.toNat = 12

/-- Python `str.split()` with no argument: split on whitespace runs, dropping empty
tokens; `cur` accumulates the current word reversed. -/
def splitWsAux : List Char → List Char → List (List Char)
  | cur, [] => if cur.isEmpty then [] else [cur.reverse]
  | cur, c :: rest =>
      if isPySpace c then
        if cur.isEmpty then splitWsAux [] rest else cur.reverse :: splitWsAux [] rest
      else splitWsAux (c :: cur) rest

/-- Python `a.startswith(b)` as list-level test (pattern first). -/
def hasPrefixC : List Char → List Char → Bool
  | [], _ => true
  | _ :: _, [] => false
  | a :: pa, b :: sb => a = b && hasPrefixC pa sb

/-- Python substring test `pat in s`. -/
def containsSub (pat : List Char) : List Char → Bool
  | [] => hasPrefixC pat []
  | c :: rest => hasPrefixC pat (c :: rest) || containsSub pat rest

/-- Drop leading Python whitespace. -/
def dropLeadingWs : List Char → List Char
  | [] => []
  | c :: rest => if isPySpace c then dropLeadingWs rest else c :: rest

/-- Python `str.strip()`. -/
def pyStrip (l : List Char) : List Char :=
  (dropLeadingWs (dropLeadingWs l).reverse).reverse

/-- The complex-indicator keyword list of `_classify_with_rules`. -/
def complexKeywords : List String :=
  ["compare", "analyze", "evaluate", "assess", "versus", "vs", "difference between",
   "better than", "pros and cons"]

/-- The moderate-indicator keyword list of `_classify_with_rules`. -/
def moderateKeywords : List String :=
  ["how do", "how can", "explain", "tell me about", "describe", "what features"]

/-- The simple-question prefixes of `_classify_with_rules`. -/
def simpleStarts : List String := ["what is", "what are", "who is", "when is"]

/-- Rules `QueryRouter._classify_with_rules(query)`. -/
def classifyWithRules (query : String) : String :=
  let query_lower := pyLower query.data
  let words := splitWsAux [] query_lower
  if complexKeywords.any (fun kw => containsSub kw.data query_lower) then "complex"
  else if moderateKeywords.any (fun kw => containsSub kw.data query_lower) then "moderate"
  else if words.length ≤ 5 then "simple"
  else if simpleStarts.any (fun p => hasPrefixC p.data query_lower) then "simple"
  else "moderate"

/-- The memoized query normalization `query.lower().strip()`. -/
def normalizeQ (q : String) : String := String.mk (pyStrip (pyLower q.data))

/-- Lookup in the classification memo dict. -/
def memoGet : List (String × String) → String → Option String
  | [], _ => none
  | p :: rest, k => if p.1 = k then some p.2 else memoGet rest k

/-- Classifier `QueryRouter.classify_query(query)` over the memo state
(`classification_cache`); the Gemini primary path is disabled in the source. -/
def classify_query (memo : List (String × String)) (q : String) :
    String × List (String × String) :=
  let qn := normalizeQ q
  match memoGet memo qn with
  | some c => (c, memo)
  | none =>
      let r := classifyWithRules q
      (r, memo ++ [(qn, r)])

/-- Routing `QueryRouter.select_strategy(complexity, user_preference)`.  An empty
string preference is falsy in Python; the final table lookup cannot miss
(the map's values are table keys), so the default is never returned. -/
def select_strategy (complexity : String) (user_preference : Option String) :
    RetrievalStrategy :=
  let byPref : Option RetrievalStrategy :=
    match user_preference with
    | some p => if p = "" then none else strategyTableGet p
    | none => none
  match byPref with
  | some st => st
  | none =>
      let strategy_name :=
        if complexity = "simple" then "fast"
        else if complexity = "moderate" then "balanced"
        else if complexity = "complex" then "comprehensive"
        else "balanced"
      (strategyTableGet strategy_name).getD balancedStrategy

/-! Metrics: `core/metrics.py`.  Only the append-only `queries` log is
modelled; the `aggregated` running sums are derived data read only by the
dashboard endpoints, which no claim concerns. -/


/-- Source `core/metrics.py` `QueryMetric`. -/
structure QueryMetric where
  timestamp : Rat
  query : String
  source : String
  strategy : String
  latency_ms : Rat
  cost : Rat
  confidence : Rat
  num_documents : Nat
  deriving DecidableEq, Repr

/-- Logger `MetricsCollector.log_query`: append one metric. -/
def log_query (metrics : List QueryMetric) (timestamp : Rat)
    (query source strategy : String) (latency_ms cost confidence : Rat)
    (num_documents : Nat) : List QueryMetric :=
  metrics ++ [{ timestamp := timestamp, query := query, source := source,
                strategy := strategy, latency_ms := latency_ms, cost := cost,
                confidence := confidence, num_documents := num_documents }]

/-! Orchestrator: `core/orchestrator.py`. -/


/-- A value of a per-call configuration override (`user_config` entries are
arbitrary Python values; the constructors cover the values the pipeline can
observe). -/
inductive CVal where
  | b (v : Bool)
  | q (v : Rat)
  | s (v : String)
  | none
  deriving DecidableEq, Repr

/-- Python truthiness of a configuration value. -/
def CVal.truthy : CVal → Bool
  | .b v => v
  | .q v => v ≠ 0
  | .s v => v ≠ ""
  | .none => false

/-- Configuration `OrchestratorConfig` with its field defaults.  Fields hold raw override
values (`CVal`), interpreted at their use sites as Python would. -/
structure OrchestratorConfig where
  use_cache : CVal := .b true
  cache_threshold : CVal := .q (88/100)
  default_strategy : CVal := .none
  max_cost_per_query : CVal := .q (5/100)
  enable_verification : CVal := .b true
  deriving DecidableEq, Repr

/-- The process-wide default configuration (`OrchestratorConfig()`). -/
def defaultOrchestratorConfig : OrchestratorConfig := {}

/-- One keyword argument of `OrchestratorConfig(**merged)`: a known field
name replaces that field; an unknown name raises `TypeError`. -/
def applyOverride (c : OrchestratorConfig) (k : String) (v : CVal) :
    Except String OrchestratorConfig :=
  if k = "use_cache" then .ok { c with use_cache := v }
  else if k = "cache_threshold" then .ok { c with cache_threshold := v }
  else if k = "default_strategy" then .ok { c with default_strategy := v }
  else if k = "max_cost_per_query" then .ok { c with max_cost_per_query := v }
  else if k = "enable_verification" then .ok { c with enable_verification := v }
  else .error ("TypeError: unexpected keyword argument " ++ k)

/-- Merge `OrchestratorConfig(**{**config.__dict__, **user_config})`: apply the
override entries in order (later duplicates win, as in a dict literal). -/
def mergeConfig (c : OrchestratorConfig) : List (String × CVal) →
    Except String OrchestratorConfig
  | [] => .ok c
  | (k, v) :: rest =>
      match applyOverride c k v with
      | .ok c' => mergeConfig c' rest
      | .error e => .error e

/-- The config-resolution prolog of `process_query`: `if user_config:` is
False for both `None` and the empty dict, keeping the base config. -/
def resolveConfig (base : OrchestratorConfig) :
    Option (List (String × CVal)) → Except String OrchestratorConfig
  | Option.none => .ok base
  | some l => if l.isEmpty then .ok base else mergeConfig base l

/-- The strategy-override value passed as `user_preference`: only a string
can name a table entry (any non-string value is either falsy or not a key of
`STRATEGIES`, so default routing applies either way). -/
def prefOf : CVal → Option String
  | .s p => some p
  | _ => Option.none

/-- The budget comparison `strategy.estimated_cost > config.max_cost_per_query`:
numbers (and bools, which are ints in Python) compare; a string or `None` on
the right raises `TypeError`. -/
def cvalGtCost (cost : Rat) : CVal → Except String Bool
  | .q r => .ok (if cost > r then true else false)
  | .b bv => .ok (if cost > (if bv then (1 : Rat) else 0) then true else false)
  | .s _ => .error "TypeError: float and str comparison"
  | .none => .error "TypeError: float and NoneType comparison"

/-- Whether a config value can stand on the right of the budget comparison
without raising. -/
def numericCVal : CVal → Bool
  | .q _ => true
  | .b _ => true
  | _ => false

/-- The mutable state shared by the orchestrator's components: the base
config, the semantic cache, the router's classification memo, and the metrics
log. -/
structure OrchState where
  config : OrchestratorConfig
  cache : CacheState
  memo : List (String × String)
  metrics : List QueryMetric
  deriving Repr

/-- Serializer `MaestroOrchestrator._serialize_doc(doc)`. -/
def serialize_doc (doc : Doc) : SerDoc :=
  { id := doc.id, title := doc.title, category := doc.category,
    similarity_score := doc.similarity_score,
    content_preview := doc.content.take 150 ++ "..." }

/-- Synthesis `MaestroOrchestrator._generate_answer(query, documents)`. -/
def generate_answer (query : String) (documents : List Doc) : String :=
  let doc_titles := (documents.take 3).map (fun d => d.title)
  let answer := "Based on " ++ toString documents.length ++ " relevant documents ("
    ++ String.intercalate ", " doc_titles ++ "), "
  match documents with
  | [] => answer
  | d :: _ => answer ++ d.content.take 200 ++ "..."

/-- Degradation `MaestroOrchestrator._fallback_response(query, error)`. -/
def fallback_response (query : String) (error : String) : ResultMap :=
  [("answer", .s "I apologize, but I\x27m experiencing technical difficulties. Please try again in a moment."),
   ("documents", .docs []), ("confidence", .q 0), ("cost", .q 0),
   ("latency_ms", .q 0), ("source", .s "FALLBACK"), ("error", .s error),
   ("strategy", .s "error_handling")]

/-- The result dict built at STEP 9 of `process_query`. -/
def retrievalResult (answer : String) (docs : List Doc) (confidence : Rat)
    (strategy : RetrievalStrategy) (latency_ms : Rat) (complexity : String) : ResultMap :=
  [("answer", .s answer), ("documents", .docs (docs.map serialize_doc)),
   ("confidence", .q confidence), ("cost", .q strategy.estimated_cost),
   ("latency_ms", .q latency_ms), ("source", .s "RETRIEVAL"),
   ("strategy", .s strategy.name), ("complexity", .s complexity),
   ("num_documents_retrieved", .n docs.length)]

/-- Read a key of a result dict. -/
def lookupRM : ResultMap → String → Option RVal
  | [], _ => Option.none
  | p :: rest, k => if p.1 = k then some p.2 else lookupRM rest k

/-- Read a rational value of a result dict (the keys read this way are always
present and rational on the paths that read them). -/
def rmRat (r : ResultMap) (k : String) : Rat :=
  match lookupRM r k with
  | some (.q v) => v
  | _ => 0

/-- Read a document-list value of a result dict. -/
def rmDocs (r : ResultMap) (k : String) : List SerDoc :=
  match lookupRM r k with
  | some (.docs v) => v
  | _ => []

/-- Entry point `MaestroOrchestrator.process_query(query, user_config)`.

Collaborators are passed in: `sim` abstracts the embedding model (shared by
cache lookups and writes), `search` the vector-DB collaborator, which may
fail.  `tStart` and `tEnd` are the wall-clock readings at entry and at the
latency measurements.  Exceptions are modelled by `Except.error`: only the
STEP 5 search is guarded by try/except in the source, so a `TypeError` from
the config merge or from the budget comparison propagates.  The STEP 8
verification branch only prints, so it has no observable effect. -/
def process_query (sim : String → String → Rat)
    (search : String → Nat → Except String (List Doc))
    (tStart tEnd : Rat) (st : OrchState) (query : String)
    (user_config : Option (List (String × CVal))) :
    Except String (ResultMap × OrchState) :=
  match resolveConfig st.config user_config with
  | .error e => .error e
  | .ok config =>
    match (if config.use_cache.truthy then SemanticCache.get sim tStart st.cache query
           else (Option.none, st.cache)) with
    | (some cached, cache1) =>
        let cached := cached ++ [("total_latency_ms", .q ((tEnd - tStart) * 1000))]
        let metrics1 := log_query st.metrics tEnd query "cache" "cached"
          (rmRat cached "latency_ms") (rmRat cached "cost") (rmRat cached "confidence")
          (rmDocs cached "documents").length
        .ok (cached, { st with cache := cache1, metrics := metrics1 })
    | (Option.none, cache1) =>
        let classified := classify_query st.memo query
        let complexity := classified.1
        let memo1 := classified.2
        let strategy0 := select_strategy complexity (prefOf config.default_strategy)
        match cvalGtCost strategy0.estimated_cost config.max_cost_per_query with
        | .error e => .error e
        | .ok over =>
          let strategy := if over then select_strategy "simple" Option.none else strategy0
          match search query strategy.top_k with
          | .error e =>
              .ok (fallback_response query e, { st with cache := cache1, memo := memo1 })
          | .ok documents =>
              let answer := generate_answer query documents
              let confidence := calculate_confidence documents
              let latency_ms := (tEnd - tStart) * 1000
              let result := retrievalResult answer documents confidence strategy
                latency_ms complexity
              let cache2 :=
                if config.use_cache.truthy = true ∧ confidence ≥ 85/100 then
                  SemanticCache.set tEnd cache1 query answer
                    (documents.map serialize_doc) confidence strategy.estimated_cost
                    strategy.name complexity 3600
                else cache1
              let metrics1 := log_query st.metrics tEnd query "retrieval" strategy.name
                latency_ms strategy.estimated_cost confidence documents.length
              .ok (result, { st with cache := cache2, memo := memo1, metrics := metrics1 })

/-- One public operation on the semantic cache. -/
inductive CacheOp where
  | get (now : Rat) (q : String)
  | set (now : Rat) (query answer : String) (documents : List SerDoc)
        (confidence cost : Rat) (strategy complexity : String) (ttl : Int)
  | clear

/-- Apply one public cache operation to a cache state. -/
def applyOp (sim : String → String → Rat) (s : CacheState) : CacheOp → CacheState
  | .get now q => (SemanticCache.get sim now s q).2
  | .set now q a d conf c strat cx ttl => SemanticCache.set now s q a d conf c strat cx ttl
  | .clear => SemanticCache.clear s

/-- Apply a sequence of public cache operations. -/
def applyOps (sim : String → String → Rat) (s : CacheState) (ops : List CacheOp) : CacheState :=
  ops.foldl (applyOp sim) s

/-- A similarity function that never matches (for runs that must miss the
cache). -/
def simZero : String → String → Rat := fun _ _ => 0

/-- A concrete retrieved document. -/
def docX : Doc :=
  { id := "doc_001", title := "Refund Policy", category := some "policy",
    content := "Refunds are available within 30 days.", similarity_score := 1/2 }

/-- A search collaborator returning one document. -/
def searchOne : String → Nat → Except String (List Doc) := fun _ _ => .ok [docX]

/-- A search collaborator that always fails. -/
def searchFail : String → Nat → Except String (List Doc) := fun _ _ => .error "DB error"

/-- A fresh orchestrator state with default config. -/
def st0 : OrchState :=
  { config := {}, cache := mkCache (88/100) 1000, memo := [], metrics := [] }

/-- A per-call override setting the budget to zero. -/
def ucBudget : List (String × CVal) := [("max_cost_per_query", CVal.q 0)]

/-- The merged configuration for `ucBudget`. -/
def cfgBudget : OrchestratorConfig := { max_cost_per_query := .q 0 }

/-- The orchestrator state after the concrete fallback run on "hi": the cache
counted one missed lookup, the classification was memoized, and no metric was
logged. -/
def stHi : OrchState :=
  { config := {},
    cache := { mkCache (88/100) 1000 with total_queries := 1, cache_misses := 1 },
    memo := [("hi", "simple")], metrics := [] }

/-! Theorems: the ten claims, their witnesses and counterexamples, and the
supporting lemmas. -/

/-- Claim C9.  For every ranked document list, the computed confidence equals
`min((topScore + 0.15) * 2.0, 1.0)`, further multiplied by 1.05 and re-capped
at 1.0 exactly when at least two documents are present and the mean similarity
of the top three (or all, if fewer) documents exceeds 0.35; and the confidence
of an empty document list is 0. -/
theorem C9_confidence_formula (documents : List Doc) :
    calculate_confidence documents = specConfidence documents := by
  match documents with
  | [] => rfl
  | [d] =>
      simp [calculate_confidence, specConfidence]
  | d :: d' :: rest =>
      simp [calculate_confidence, specConfidence]

/-- After `del d[k]`, no entry with key `k` remains. -/
theorem all_ne_dictDel (m : List (String × CacheEntry)) (k : String) :
    ((dictDel m k).all fun p => p.1 ≠ k) = true := by
  simp only [dictDel, List.all_eq_true, List.mem_filter]
  intro p hp
  exact hp.2

/-- Assignment `d[k] = v` does not touch entries under a different key: absence of another
key is preserved. -/
theorem all_ne_dictSet (m : List (String × CacheEntry)) (k k' : String) (v : CacheEntry)
    (hkk : k ≠ k') (h : (m.all fun p => p.1 ≠ k') = true) :
    ((dictSet m k v).all fun p => p.1 ≠ k') = true := by
  simp only [dictSet]
  split
  · simp only [List.all_eq_true, List.mem_map] at h ⊢
    rintro p ⟨p0, hp0, rfl⟩
    by_cases hk : p0.1 = k
    · simpa [hk] using hkk
    · simpa [hk] using h p0 hp0
  · simp only [List.all_eq_true, List.mem_append, List.mem_singleton] at h ⊢
    intro p hp
    rcases hp with hp | hp
    · exact h p hp
    · subst hp
      simpa using hkk

/-- Reading the assigned key from the replace-in-place branch of `dictSet`. -/
theorem dictGet_assignMap (m : List (String × CacheEntry)) (k : String) (v : CacheEntry)
    (h : (m.any fun p => p.1 = k) = true) :
    dictGet (m.map fun p => if p.1 = k then (k, v) else p) k = some v := by
  induction m with
  | nil => simp at h
  | cons p rest ih =>
      by_cases hk : p.1 = k
      · simp [dictGet, hk]
      · have h' : (rest.any fun p => p.1 = k) = true := by simpa [hk] using h
        simp [dictGet, hk, ih h']

/-- Reading a different key from the replace-in-place branch of `dictSet`. -/
theorem dictGet_assignMap_ne (m : List (String × CacheEntry)) (k k' : String) (v : CacheEntry)
    (hkk : k' ≠ k) :
    dictGet (m.map fun p => if p.1 = k then (k, v) else p) k' = dictGet m k' := by
  induction m with
  | nil => simp [dictGet]
  | cons p rest ih =>
      by_cases hk : p.1 = k
      · simp [dictGet, hk, Ne.symm hkk, ih]
      · simp only [List.map_cons, if_neg hk, dictGet]
        by_cases hk' : p.1 = k'
        · simp [hk']
        · simp [hk', ih]

/-- Reading the appended key from the append branch of `dictSet`. -/
theorem dictGet_appendNew (m : List (String × CacheEntry)) (k : String) (v : CacheEntry)
    (h : (m.any fun p => p.1 = k) = false) :
    dictGet (m ++ [(k, v)]) k = some v := by
  induction m with
  | nil => simp [dictGet]
  | cons p rest ih =>
      simp only [List.any_cons, Bool.or_eq_false_iff, decide_eq_false_iff_not] at h
      simp [dictGet, h.1, ih (by simpa using h.2)]

/-- Reading a different key from the append branch of `dictSet`. -/
theorem dictGet_appendNew_ne (m : List (String × CacheEntry)) (k k' : String) (v : CacheEntry)
    (hkk : k' ≠ k) :
    dictGet (m ++ [(k, v)]) k' = dictGet m k' := by
  induction m with
  | nil => simp [dictGet, Ne.symm hkk]
  | cons p rest ih =>
      by_cases hk' : p.1 = k'
      · simp [dictGet, hk']
      · simp [dictGet, hk', ih]

/-- Looking up the freshly assigned key returns the new value. -/
theorem dictGet_dictSet (m : List (String × CacheEntry)) (k : String) (v : CacheEntry) :
    dictGet (dictSet m k v) k = some v := by
  simp only [dictSet]
  split
  next h => exact dictGet_assignMap m k v h
  next h => exact dictGet_appendNew m k v (by revert h; cases m.any fun p => p.1 = k <;> simp)

/-- Looking up a different key is unaffected by an assignment. -/
theorem dictGet_dictSet_ne (m : List (String × CacheEntry)) (k k' : String) (v : CacheEntry)
    (hkk : k' ≠ k) : dictGet (dictSet m k v) k' = dictGet m k' := by
  simp only [dictSet]
  split
  · exact dictGet_assignMap_ne m k k' v hkk
  · exact dictGet_appendNew_ne m k k' v hkk

/-! Counter behavior of `SemanticCache.get`. -/


/-- Every lookup increments the total-queries counter exactly once. -/
theorem get_total_queries (sim : String → String → Rat) (now : Rat) (s : CacheState)
    (q : String) :
    (SemanticCache.get sim now s q).2.total_queries = s.total_queries + 1 := by
  simp only [SemanticCache.get]
  split
  · split
    · split <;> rfl
    · rfl
  · rfl

/-- Every lookup increments the hit counter at most once. -/
theorem get_cache_hits_le (sim : String → String → Rat) (now : Rat) (s : CacheState)
    (q : String) :
    (SemanticCache.get sim now s q).2.cache_hits ≤ s.cache_hits + 1 := by
  simp only [SemanticCache.get]
  split
  · split
    · split <;> exact le_refl _
    · exact Nat.le_succ _
  · exact Nat.le_succ _

/-- A lookup never decreases the hit counter. -/
theorem get_cache_hits_ge (sim : String → String → Rat) (now : Rat) (s : CacheState)
    (q : String) :
    s.cache_hits ≤ (SemanticCache.get sim now s q).2.cache_hits := by
  simp only [SemanticCache.get]
  split
  · split
    · split <;> exact Nat.le_succ _
    · exact le_refl _
  · exact le_refl _

/-- The cache write `set` never touches the statistics counters. -/
theorem set_counters (now : Rat) (s : CacheState) (q a : String) (d : List SerDoc)
    (conf c : Rat) (strat cx : String) (ttl : Int) :
    (SemanticCache.set now s q a d conf c strat cx ttl).total_queries = s.total_queries ∧
    (SemanticCache.set now s q a d conf c strat cx ttl).cache_hits = s.cache_hits ∧
    (SemanticCache.set now s q a d conf c strat cx ttl).cache_misses = s.cache_misses := by
  simp only [SemanticCache.set]
  split <;> exact ⟨rfl, rfl, rfl⟩

/-- Claim C7.  For every confidence value strictly below 0.85, the cache's set
operation is a no-op: the cache state (contents, entry count and statistics)
is left completely unchanged, so no prior entry is evicted; and a subsequent
get for that query misses unless some other stored entry matches it (i.e.
unless the best-similarity scan over the stored entries reaches the
threshold). -/
theorem C7_write_gate (sim : String → String → Rat) (now now' : Rat) (s : CacheState)
    (q a : String) (d : List SerDoc) (conf c : Rat) (strat cx : String) (ttl : Int)
    (h : conf < 85/100) :
    SemanticCache.set now s q a d conf c strat cx ttl = s ∧
    ((bestMatch sim q s.cache).1 = none ∨ (bestMatch sim q s.cache).2 < s.similarity_threshold →
      (SemanticCache.get sim now' (SemanticCache.set now s q a d conf c strat cx ttl) q).1
        = none) := by
  have hset : SemanticCache.set now s q a d conf c strat cx ttl = s := by
    simp only [SemanticCache.set]
    exact if_pos h
  refine ⟨hset, ?_⟩
  intro hmiss
  rw [hset]
  simp only [SemanticCache.get]
  split
  next bm bs heq =>
    rcases hmiss with hnone | hlt
    · rw [show bestMatch sim q s.cache = (some bm, bs) from heq] at hnone
      simp at hnone
    · rw [show bestMatch sim q s.cache = (some bm, bs) from heq] at hlt
      simp only at hlt
      rw [if_neg (not_le.mpr hlt)]
  next => rfl

/-- Witness for C7 at a concrete input. -/
theorem C7_write_gate_witness :
    SemanticCache.set 0 (mkCache (88/100) 2) "q0" "a0" [] (1/2) (1/100) "fast" "simple" 3600
        = mkCache (88/100) 2 ∧
    ((bestMatch (fun x y => if x = y then 1 else 0) "q0" (mkCache (88/100) 2).cache).1 = none ∨
      (bestMatch (fun x y => if x = y then 1 else 0) "q0" (mkCache (88/100) 2).cache).2
        < (mkCache (88/100) 2).similarity_threshold →
      (SemanticCache.get (fun x y => if x = y then 1 else 0) 1
          (SemanticCache.set 0 (mkCache (88/100) 2) "q0" "a0" [] (1/2) (1/100) "fast" "simple"
            3600) "q0").1 = none) :=
  C7_write_gate (fun x y => if x = y then 1 else 0) 0 1 (mkCache (88/100) 2)
    "q0" "a0" [] (1/2) (1/100) "fast" "simple" 3600 (by norm_num)

/-- Counterexample to claim C3 as stated: the entry of `oneEntryState` was
stored at time 0 with `ttl = 1`, yet a lookup at time exactly 1 (i.e. at `t`
seconds after insertion, where the claim demands a miss) still returns the
cached result, because the code expires only when `now - cached_at > ttl`
(strict). -/
theorem C3_counterexample :
    ((SemanticCache.get simExact 1 oneEntryState "a").1).isSome = true := by
  norm_num [SemanticCache.get, bestMatch, bestMatchAux, oneEntryState, oneEntry, simExact,
    mkCache, hitResult, dictSet, dictDel]

/-- Claim C3 (amended).  For every entry stored with `ttl = t` whose query is
looked up with similarity meeting the threshold, the lookup returns the cached
result (with its hit count incremented) for every lookup time at most `t`
seconds after insertion, and for every lookup time strictly more than `t`
seconds it misses and the entry is removed from the cache. -/
theorem C3_ttl_expiry (sim : String → String → Rat) (now : Rat) (s : CacheState)
    (q : String) (e : CacheEntry) (bs : Rat)
    (hbm : bestMatch sim q s.cache = (some e, bs))
    (hth : bs ≥ s.similarity_threshold) :
    (now - e.cached_at ≤ (e.ttl : Rat) →
      (SemanticCache.get sim now s q).1
        = some (hitResult { e with hit_count := e.hit_count + 1 } bs)) ∧
    ((e.ttl : Rat) < now - e.cached_at →
      (SemanticCache.get sim now s q).1 = none ∧
      ((SemanticCache.get sim now s q).2.cache.all fun p => p.1 ≠ e.query) = true) := by
  constructor
  · intro hle
    simp only [SemanticCache.get, hbm, if_pos hth]
    rw [if_neg (not_lt.mpr hle)]
  · intro hgt
    simp only [SemanticCache.get, hbm, if_pos hth]
    rw [if_pos (show now - e.cached_at > (e.ttl : Rat) from hgt)]
    exact ⟨rfl, all_ne_dictDel _ _⟩

/-- Witness for C3 (amended) at a concrete input: the entry of `oneEntryState`
(stored at 0 with ttl 1) is still returned at lookup time 1. -/
theorem C3_ttl_expiry_witness :
    (SemanticCache.get simExact 1 oneEntryState "a").1
      = some (hitResult { oneEntry with hit_count := 1 } 1) :=
  (C3_ttl_expiry simExact 1 oneEntryState "a" oneEntry 1
      (by norm_num [bestMatch, bestMatchAux, oneEntryState, oneEntry, simExact, mkCache])
      (by norm_num [oneEntryState, mkCache])).1
    (by norm_num [oneEntry])

/-- Counterexample to claim C5 as stated: looking up `oneEntryState`'s entry
at time 2 (expired, since `2 - 0 > 1`) with similarity 1 ≥ 0.88 returns no
result and increments the miss counter, but — contrary to the claim — the
cache-wide hit counter is ALSO incremented. -/
theorem C5_counterexample :
    (SemanticCache.get simExact 2 oneEntryState "a").1 = none ∧
    (SemanticCache.get simExact 2 oneEntryState "a").2.cache_hits = 1 ∧
    oneEntryState.cache_hits = 0 := by
  norm_num [SemanticCache.get, bestMatch, bestMatchAux, oneEntryState, oneEntry, simExact,
    mkCache, hitResult, dictSet, dictDel]

/-- Claim C5 (amended).  For every lookup where the best similarity meets the
threshold but the matched entry is expired, the cache evicts that entry and
the lookup returns no result, with the miss counter incremented — but the
cache-wide hit counter is also incremented (the code counts the
threshold-match as a hit before checking the TTL), and the matched entry's
hit count is bumped on the entry object just before it is deleted, so an
incremented `hit_count` remains visible in the cache only for non-expired
hits. -/
theorem C5_expired_hit (sim : String → String → Rat) (now : Rat) (s : CacheState)
    (q : String) (e : CacheEntry) (bs : Rat)
    (hbm : bestMatch sim q s.cache = (some e, bs))
    (hth : bs ≥ s.similarity_threshold)
    (hexp : now - e.cached_at > (e.ttl : Rat)) :
    (SemanticCache.get sim now s q).1 = none ∧
    (SemanticCache.get sim now s q).2.cache_misses = s.cache_misses + 1 ∧
    (SemanticCache.get sim now s q).2.cache_hits = s.cache_hits + 1 ∧
    (SemanticCache.get sim now s q).2.total_queries = s.total_queries + 1 ∧
    ((SemanticCache.get sim now s q).2.cache.all fun p => p.1 ≠ e.query) = true := by
  simp only [SemanticCache.get, hbm, if_pos hth, if_pos hexp]
  simpa using all_ne_dictDel
    (dictSet s.cache e.query { e with hit_count := e.hit_count + 1 }) e.query

/-- Witness for C5 (amended) at a concrete input. -/
theorem C5_expired_hit_witness :
    (SemanticCache.get simExact 2 oneEntryState "a").1 = none ∧
    (SemanticCache.get simExact 2 oneEntryState "a").2.cache_misses
      = oneEntryState.cache_misses + 1 ∧
    (SemanticCache.get simExact 2 oneEntryState "a").2.cache_hits
      = oneEntryState.cache_hits + 1 ∧
    (SemanticCache.get simExact 2 oneEntryState "a").2.total_queries
      = oneEntryState.total_queries + 1 ∧
    ((SemanticCache.get simExact 2 oneEntryState "a").2.cache.all
      fun p => p.1 ≠ "a") = true := by
  have h := C5_expired_hit simExact 2 oneEntryState "a" oneEntry 1
    (by norm_num [bestMatch, bestMatchAux, oneEntryState, oneEntry, simExact, mkCache])
    (by norm_num [oneEntryState, mkCache])
    (by norm_num [oneEntry])
  simpa [oneEntry] using h

/-! Machinery for the capacity/LRU claim (C6). -/


/-- If no pair of `m` carries key `q`, the `any`-scan is false. -/
theorem key_any_eq_false (m : List (String × CacheEntry)) (q : String)
    (h : q ∉ m.map Prod.fst) : (m.any fun p => p.1 = q) = false := by
  rw [List.any_eq_false]
  intro p hp
  simp only [decide_eq_true_eq]
  intro hq
  exact h (List.mem_map.mpr ⟨p, hp, hq⟩)

/-- Assigning a fresh key appends the pair. -/
theorem dictSet_fresh (m : List (String × CacheEntry)) (q : String) (v : CacheEntry)
    (h : q ∉ m.map Prod.fst) : dictSet m q v = m ++ [(q, v)] := by
  simp [dictSet, key_any_eq_false m q h]

/-- The oldest-key fold keeps its accumulator when no later entry is strictly
older. -/
theorem oldestKeyAux_eq :
    ∀ (rest : List (String × CacheEntry)) (k0 : String) (t0 : Rat),
      (∀ p ∈ rest, ¬ p.2.cached_at < t0) →
      SemanticCache.oldestKeyAux (k0, t0) rest = k0
  | [], _, _, _ => rfl
  | p :: l, k0, t0, h => by
      have h1 : ¬ p.2.cached_at < t0 := h p (List.mem_cons_self _ _)
      simp only [SemanticCache.oldestKeyAux, if_neg h1]
      exact oldestKeyAux_eq l k0 t0 (fun x hx => h x (List.mem_cons_of_mem _ hx))

/-- When the head of the dict is (weakly) the oldest entry, `min` by
`cached_at` returns the head's key. -/
theorem oldestKey_cons (hd : String × CacheEntry) (tl : List (String × CacheEntry))
    (h : ∀ p ∈ tl, ¬ p.2.cached_at < hd.2.cached_at) :
    SemanticCache.oldestKey (hd :: tl) = hd.1 := by
  obtain ⟨k, e⟩ := hd
  exact oldestKeyAux_eq tl k e.cached_at h

/-- Deleting the head key of a unique-key dict removes exactly the head. -/
theorem dictDel_cons_head (hd : String × CacheEntry) (tl : List (String × CacheEntry))
    (h : hd.1 ∉ tl.map Prod.fst) : dictDel (hd :: tl) hd.1 = tl := by
  simp only [dictDel, List.filter_cons]
  rw [if_neg (by simp)]
  apply List.filter_eq_self.mpr
  intro p hp
  simp only [decide_eq_true_eq]
  intro hq
  exact h (List.mem_map.mpr ⟨p, hp, hq⟩)

/-- The cache write `set` above the confidence gate, as a single state update. -/
theorem set_unfold (now : Rat) (s : CacheState) (q a : String) (d : List SerDoc)
    (conf c : Rat) (strat cx : String) (ttl : Int) (hc : ¬ conf < 85/100) :
    SemanticCache.set now s q a d conf c strat cx ttl
      = { s with
          cache := dictSet (evictIfFull s) q
            { query := q, answer := a, documents := d, confidence := conf, cost := c,
              cached_at := now, strategy := strat, complexity := cx, ttl := ttl } } := by
  simp only [SemanticCache.set, evictIfFull, if_neg hc]

/-- Dropping equal counts from one list. -/
theorem drop_congr (L : List String) (n k : Nat) (h : n = k) : L.drop n = L.drop k := by
  rw [h]

/-- Dropping one more element from a cons. -/
theorem drop_shift (a : String) (L : List String) (n k : Nat) (h : k = n + 1) :
    L.drop n = (a :: L).drop k := by
  subst h
  rw [List.drop_succ_cons]

/-- The sliding-window characterization of `insertAll`: starting from a
well-formed cache (unique keys, strictly increasing `cached_at` along the
dict order, all stored times in the past, within capacity `m`), inserting a
list of fresh distinct queries leaves exactly the last `m` keys of the
concatenated key sequence. -/
theorem insertAll_keys (m : Nat) (hm : 1 ≤ m) :
    ∀ (qs : List String) (t : Rat) (s : CacheState),
      s.max_size = m →
      s.cache.length ≤ m →
      (s.cache.map Prod.fst).Nodup →
      s.cache.Pairwise (fun p r => p.2.cached_at < r.2.cached_at) →
      (∀ p ∈ s.cache, p.2.cached_at < t) →
      qs.Nodup →
      (∀ q ∈ qs, q ∉ s.cache.map Prod.fst) →
      (insertAll t qs s).cache.map Prod.fst
        = (s.cache.map Prod.fst ++ qs).drop (s.cache.length + qs.length - m) := by
  intro qs
  induction qs with
  | nil =>
      intro t s hms hlen _ _ _ _ _
      rw [insertAll]
      rw [show s.cache.length + ([] : List String).length - m = 0 by
            simp only [List.length_nil, Nat.add_zero]; omega]
      rw [List.drop_zero, List.append_nil]
  | cons q rest ih =>
      intro t s hms hlen hnd hpw hlt hqnd hfresh
      have hconf : ¬ (1 : Rat) < 85/100 := by norm_num
      have hqfresh : q ∉ s.cache.map Prod.fst := hfresh q (List.mem_cons_self _ _)
      have hrestnd : rest.Nodup := (List.nodup_cons.mp hqnd).2
      have hqrest : q ∉ rest := (List.nodup_cons.mp hqnd).1
      rw [insertAll]
      by_cases hfull : s.cache.length < m
      · -- not full: plain append
        have hcond : ¬ (s.cache.length ≥ s.max_size) := by omega
        have hset : (SemanticCache.set t s q "answer" [] 1 (1/100) "fast" "simple" 3600)
            = { s with cache := s.cache ++ [(q, newEntry q t)] } := by
          rw [set_unfold _ _ _ _ _ _ _ _ _ _ hconf]
          rw [show evictIfFull s = s.cache from by simp only [evictIfFull, if_neg hcond]]
          rw [dictSet_fresh _ _ _ hqfresh]
          rfl
        rw [hset]
        have ih' := ih (t + 1) { s with cache := s.cache ++ [(q, newEntry q t)] }
          (by simpa using hms)
          (by simp only [List.length_append, List.length_singleton]; omega)
          (by
            simp only [List.map_append, List.map_singleton]
            rw [List.nodup_append]
            exact ⟨hnd, List.nodup_singleton q, by
              intro x hx hx'
              rw [List.mem_singleton] at hx'
              subst hx'
              exact hqfresh hx⟩)
          (by
            rw [List.pairwise_append]
            refine ⟨hpw, List.pairwise_singleton _ _, ?_⟩
            intro p hp x hx
            rw [List.mem_singleton] at hx
            subst hx
            exact hlt p hp)
          (by
            intro p hp
            rcases List.mem_append.mp hp with h | h
            · exact lt_trans (hlt p h) (by linarith)
            · rw [List.mem_singleton] at h
              subst h
              exact lt_add_one t)
          hrestnd
          (by
            intro q' hq'
            simp only [List.map_append, List.map_singleton, List.mem_append,
              List.mem_singleton]
            rintro (h | rfl)
            · exact hfresh q' (List.mem_cons_of_mem _ hq') h
            · exact hqrest hq')
        rw [ih']
        dsimp only
        simp only [List.map_append, List.map_cons, List.map_nil, List.cons_append,
          List.append_assoc, List.singleton_append, List.nil_append]
        exact drop_congr _ _ _ (by
          simp only [List.length_append, List.length_cons, List.length_nil,
            List.length_singleton]
          omega)
      · -- full: evict the head (the oldest entry), then append
        have hlenm : s.cache.length = m := le_antisymm hlen (not_lt.mp hfull)
        have hcond : s.cache.length ≥ s.max_size := by omega
        cases hsc : s.cache with
        | nil => rw [hsc] at hlenm; simp at hlenm; omega
        | cons hd tl =>
        rw [hsc] at hnd hpw hlt hqfresh hlenm hcond
        have hhdtl : hd.1 ∉ tl.map Prod.fst := by
          rw [List.map_cons, List.nodup_cons] at hnd
          exact hnd.1
        have htlnd : (tl.map Prod.fst).Nodup := by
          rw [List.map_cons, List.nodup_cons] at hnd
          exact hnd.2
        have hpw' := List.pairwise_cons.mp hpw
        have hnolt : ∀ p ∈ tl, ¬ p.2.cached_at < hd.2.cached_at :=
          fun p hp => asymm (hpw'.1 p hp)
        have hqtl : q ∉ tl.map Prod.fst := by
          intro hmem
          exact hqfresh (by rw [List.map_cons]; exact List.mem_cons_of_mem _ hmem)
        have htl1 : tl.length + 1 = m := by simpa using hlenm
        have hset : (SemanticCache.set t s q "answer" [] 1 (1/100) "fast" "simple" 3600)
            = { s with cache := tl ++ [(q, newEntry q t)] } := by
          rw [set_unfold _ _ _ _ _ _ _ _ _ _ hconf]
          rw [show evictIfFull s = tl from by
                simp only [evictIfFull, hsc, if_pos hcond]
                rw [oldestKey_cons hd tl hnolt, dictDel_cons_head hd tl hhdtl]]
          rw [dictSet_fresh tl q _ hqtl]
          rfl
        rw [hset]
        have ih' := ih (t + 1) { s with cache := tl ++ [(q, newEntry q t)] }
          (by simpa using hms)
          (by simp only [List.length_append, List.length_singleton]; omega)
          (by
            simp only [List.map_append, List.map_singleton]
            rw [List.nodup_append]
            exact ⟨htlnd, List.nodup_singleton q, by
              intro x hx hx'
              rw [List.mem_singleton] at hx'
              subst hx'
              exact hqtl hx⟩)
          (by
            rw [List.pairwise_append]
            refine ⟨hpw'.2, List.pairwise_singleton _ _, ?_⟩
            intro p hp x hx
            rw [List.mem_singleton] at hx
            subst hx
            exact hlt p (List.mem_cons_of_mem _ hp))
          (by
            intro p hp
            rcases List.mem_append.mp hp with h | h
            · exact lt_trans (hlt p (List.mem_cons_of_mem _ h)) (by linarith)
            · rw [List.mem_singleton] at h
              subst h
              exact lt_add_one t)
          hrestnd
          (by
            intro q' hq'
            simp only [List.map_append, List.map_singleton, List.mem_append,
              List.mem_singleton]
            rintro (h | rfl)
            · exact hfresh q' (List.mem_cons_of_mem _ hq')
                (by rw [hsc, List.map_cons]; exact List.mem_cons_of_mem _ h)
            · exact hqrest hq')
        rw [ih']
        dsimp only
        simp only [List.map_append, List.map_cons, List.map_nil, List.cons_append,
          List.append_assoc, List.singleton_append, List.nil_append]
        exact drop_shift hd.1 _ _ _ (by
          simp only [List.length_append, List.length_cons, List.length_nil,
            List.length_singleton]
          omega)

/-- Counterexample to claim C6 as stated: `fullState` is a full cache holding
"a" (oldest) and "b"; re-inserting (overwriting) the existing query "b" with
high confidence nevertheless evicts the other entry "a", because the code
checks `len(cache) >= max_size` before looking at whether the key already
exists.  The claim said an overwrite of an existing query removes no other
entry. -/
theorem C6_counterexample :
    (fullState.cache.any fun p => p.1 = "a") = true ∧
    ((SemanticCache.set 2 fullState "b" "ans2" [] (95/100) (1/100) "fast" "simple"
        3600).cache.all fun p => p.1 ≠ "a") = true := by
  constructor
  · norm_num [fullState, mkCache]
  · have hba : ("b" : String) ≠ "a" := by decide
    norm_num [SemanticCache.set, fullState, entryA, entryB, mkCache, dictSet, dictDel,
      SemanticCache.oldestKey, SemanticCache.oldestKeyAux, hba]

/-- Claim C6 (amended).  The cache's set operation (above the confidence
gate) always stores the new entry under the exact query string, overwriting
any prior entry for that string; it evicts the entry with the oldest
createdAt whenever the cache size is at or above maxSize at store time —
including when the store overwrites an existing query, so a full-cache
overwrite can remove another entry; when the cache is below capacity nothing
else changes (lookups of all other keys are untouched); and after inserting
maxSize + 1 distinct high-confidence entries into an empty cache at
increasing times, the cache size equals maxSize and the earliest-createdAt
entry is no longer present. -/
theorem C6_eviction_capacity :
    (∀ (now : Rat) (s : CacheState) (q a : String) (d : List SerDoc) (conf c : Rat)
        (strat cx : String) (ttl : Int), 85/100 ≤ conf →
      dictGet (SemanticCache.set now s q a d conf c strat cx ttl).cache q
          = some { query := q, answer := a, documents := d, confidence := conf, cost := c,
                   cached_at := now, strategy := strat, complexity := cx, ttl := ttl } ∧
      (s.max_size ≤ s.cache.length → SemanticCache.oldestKey s.cache ≠ q →
        ((SemanticCache.set now s q a d conf c strat cx ttl).cache.all
          fun p => p.1 ≠ SemanticCache.oldestKey s.cache) = true) ∧
      (s.cache.length < s.max_size → ∀ k, k ≠ q →
        dictGet (SemanticCache.set now s q a d conf c strat cx ttl).cache k
          = dictGet s.cache k)) ∧
    (∀ (m : Nat) (qs : List String), 1 ≤ m → qs.Nodup → qs.length = m + 1 →
      (insertAll 0 qs (mkCache (88/100) m)).cache.map Prod.fst = qs.drop 1 ∧
      (insertAll 0 qs (mkCache (88/100) m)).cache.length = m ∧
      (∀ q0, qs.head? = some q0 →
        q0 ∉ (insertAll 0 qs (mkCache (88/100) m)).cache.map Prod.fst)) := by
  constructor
  · intro now s q a d conf c strat cx ttl hconf
    have hc : ¬ conf < 85/100 := not_lt.mpr hconf
    rw [set_unfold _ _ _ _ _ _ _ _ _ _ hc]
    dsimp only
    refine ⟨dictGet_dictSet _ _ _, ?_, ?_⟩
    · intro hfull hne
      have hev : evictIfFull s = dictDel s.cache (SemanticCache.oldestKey s.cache) := by
        simp only [evictIfFull, if_pos (show s.cache.length ≥ s.max_size from hfull)]
      rw [hev]
      exact all_ne_dictSet _ _ _ _ (Ne.symm hne) (all_ne_dictDel _ _)
    · intro hlt k hk
      have hev : evictIfFull s = s.cache := by
        simp only [evictIfFull, if_neg (not_le.mpr hlt)]
      rw [hev]
      exact dictGet_dictSet_ne _ _ _ _ hk
  · intro m qs hm hnd hlen
    have hkeys := insertAll_keys m hm qs 0 (mkCache (88/100) m)
      rfl (by simp [mkCache]) (by simp [mkCache]) (by simp [mkCache])
      (by simp [mkCache]) hnd (by simp [mkCache])
    simp only [mkCache] at hkeys ⊢
    simp only [List.map_nil, List.length_nil, List.nil_append, Nat.zero_add] at hkeys
    rw [hlen, Nat.add_sub_cancel_left] at hkeys
    refine ⟨hkeys, ?_, ?_⟩
    · have hmap := congrArg List.length hkeys
      rw [List.length_map, List.length_drop, hlen] at hmap
      omega
    · intro q0 hq0
      rw [hkeys]
      cases qs with
      | nil => simp at hq0
      | cons x xs =>
          simp only [List.head?_cons, Option.some.injEq] at hq0
          subst hq0
          rw [List.drop_one, List.tail_cons]
          exact (List.nodup_cons.mp hnd).1

/-- Witness for C6 (amended) at concrete inputs: overwriting "b" in the full
two-entry cache stores the new "b" entry and evicts the oldest entry, and
inserting 3 distinct entries into an empty cache of capacity 2 leaves exactly
the last two, the first being gone. -/
theorem C6_eviction_capacity_witness :
    dictGet (SemanticCache.set 2 fullState "b" "ans2" [] (95/100) (1/100) "fast" "simple"
        3600).cache "b"
      = some { query := "b", answer := "ans2", documents := [], confidence := 95/100,
               cost := 1/100, cached_at := 2, strategy := "fast", complexity := "simple",
               ttl := 3600 } ∧
    ((SemanticCache.set 2 fullState "b" "ans2" [] (95/100) (1/100) "fast" "simple"
        3600).cache.all fun p => p.1 ≠ SemanticCache.oldestKey fullState.cache) = true ∧
    (insertAll 0 ["a", "b", "c"] (mkCache (88/100) 2)).cache.map Prod.fst
      = (["a", "b", "c"] : List String).drop 1 ∧
    (insertAll 0 ["a", "b", "c"] (mkCache (88/100) 2)).cache.length = 2 ∧
    (∀ q0, (["a", "b", "c"] : List String).head? = some q0 →
      q0 ∉ (insertAll 0 ["a", "b", "c"] (mkCache (88/100) 2)).cache.map Prod.fst) := by
  have hok : SemanticCache.oldestKey fullState.cache = "a" := by
    norm_num [fullState, entryA, entryB, mkCache, SemanticCache.oldestKey,
      SemanticCache.oldestKeyAux]
  have h1 := C6_eviction_capacity.1 2 fullState "b" "ans2" [] (95/100) (1/100) "fast"
    "simple" 3600 (by norm_num)
  have h2 := C6_eviction_capacity.2 2 ["a", "b", "c"] (by norm_num) (by decide) rfl
  exact ⟨h1.1,
    h1.2.1 (by norm_num [fullState, mkCache]) (by rw [hok]; decide),
    h2.1, h2.2.1, h2.2.2⟩

/-- Each public operation preserves `cache_hits ≤ total_queries`. -/
theorem applyOp_hits_le (sim : String → String → Rat) (s : CacheState) (op : CacheOp)
    (h : s.cache_hits ≤ s.total_queries) :
    (applyOp sim s op).cache_hits ≤ (applyOp sim s op).total_queries := by
  cases op with
  | get now q =>
      have h1 := get_total_queries sim now s q
      have h2 := get_cache_hits_le sim now s q
      simp only [applyOp]
      omega
  | set now q a d conf c strat cx ttl =>
      have h1 := set_counters now s q a d conf c strat cx ttl
      simp only [applyOp]
      omega
  | clear => simp [applyOp, SemanticCache.clear]

/-- Every reachable sequence of operations preserves `cache_hits ≤ total_queries`. -/
theorem applyOps_hits_le (sim : String → String → Rat) (ops : List CacheOp) :
    ∀ s : CacheState, s.cache_hits ≤ s.total_queries →
      (applyOps sim s ops).cache_hits ≤ (applyOps sim s ops).total_queries := by
  induction ops with
  | nil => intro s h; exact h
  | cons op rest ih =>
      intro s h
      exact ih (applyOp sim s op) (applyOp_hits_le sim s op h)

/-- Claim C10.  After every sequence of get, set and clear operations on a
fresh semantic cache, the running hits counter never exceeds the running
total-lookups counter (each lookup increments the total exactly once and the
hits at most once), so the hit rate reported by get_stats always lies in
[0, 1], and is 0 when no lookups have occurred. -/
theorem C10_hit_rate_bounds (sim : String → String → Rat) (th : Rat) (m : Nat)
    (ops : List CacheOp) :
    (applyOps sim (mkCache th m) ops).cache_hits
      ≤ (applyOps sim (mkCache th m) ops).total_queries ∧
    0 ≤ (SemanticCache.get_stats (applyOps sim (mkCache th m) ops)).hit_rate ∧
    (SemanticCache.get_stats (applyOps sim (mkCache th m) ops)).hit_rate ≤ 1 ∧
    ((applyOps sim (mkCache th m) ops).total_queries = 0 →
      (SemanticCache.get_stats (applyOps sim (mkCache th m) ops)).hit_rate = 0) ∧
    (∀ (s : CacheState) (now : Rat) (q : String),
      (SemanticCache.get sim now s q).2.total_queries = s.total_queries + 1 ∧
      (SemanticCache.get sim now s q).2.cache_hits ≤ s.cache_hits + 1 ∧
      s.cache_hits ≤ (SemanticCache.get sim now s q).2.cache_hits) := by
  have hle : (applyOps sim (mkCache th m) ops).cache_hits
      ≤ (applyOps sim (mkCache th m) ops).total_queries :=
    applyOps_hits_le sim ops (mkCache th m) (by simp [mkCache])
  refine ⟨hle, ?_, ?_, ?_, ?_⟩
  · simp only [SemanticCache.get_stats]
    split
    · positivity
    · exact le_refl 0
  · simp only [SemanticCache.get_stats]
    split
    next hpos =>
      rw [div_le_one (by exact_mod_cast hpos)]
      exact_mod_cast hle
    next => exact zero_le_one
  · intro h0
    simp [SemanticCache.get_stats, h0]
  · intro s now q
    exact ⟨get_total_queries sim now s q, get_cache_hits_le sim now s q,
           get_cache_hits_ge sim now s q⟩

/-! Claims about the orchestrator pipeline (C1, C2, C4, C8). -/


/-- A result the cache hands out is always a `hitResult`. -/
theorem get_some_eq_hitResult (sim : String → String → Rat) (now : Rat) (s : CacheState)
    (q : String) (r : ResultMap) (h : (SemanticCache.get sim now s q).1 = some r) :
    ∃ e bs, r = hitResult e bs := by
  simp only [SemanticCache.get] at h
  split at h
  · split at h
    · split at h
      · simp at h
      · simp only [Option.some.injEq] at h
        exact ⟨_, _, h.symm⟩
    · simp at h
  · simp at h

/-- A key found on the left of an appended result dict is found in the whole. -/
theorem lookupRM_append_left (a b : ResultMap) (k : String) (v : RVal)
    (h : lookupRM a k = some v) : lookupRM (a ++ b) k = some v := by
  induction a with
  | nil => simp [lookupRM] at h
  | cons p rest ih =>
      rw [List.cons_append]
      simp only [lookupRM] at h ⊢
      by_cases hk : p.1 = k
      · rw [if_pos hk] at h ⊢
        exact h
      · rw [if_neg hk] at h ⊢
        exact ih h

/-- The downgrade target: `select_strategy("simple")` is the "fast" strategy. -/
theorem select_strategy_simple : select_strategy "simple" Option.none = fastStrategy := rfl

/-- Claim C8.  For every run of the pipeline on a cache miss where the
selected strategy's estimated cost exceeds the configured maximum cost per
query (the budget comparison resolves to true), the query is not rejected:
given that the search collaborator succeeds at the "fast" depth, the call
returns a retrieval result executed with the "fast" strategy and billed at
its cost. -/
theorem C8_budget_downgrade (sim : String → String → Rat)
    (search : String → Nat → Except String (List Doc)) (tStart tEnd : Rat)
    (st : OrchState) (query : String) (uc : Option (List (String × CVal)))
    (cfg : OrchestratorConfig) (docs : List Doc)
    (hmerge : resolveConfig st.config uc = .ok cfg)
    (hmiss : (if cfg.use_cache.truthy then SemanticCache.get sim tStart st.cache query
              else (Option.none, st.cache)).1 = Option.none)
    (hover : cvalGtCost (select_strategy (classify_query st.memo query).1
        (prefOf cfg.default_strategy)).estimated_cost cfg.max_cost_per_query
      = Except.ok true)
    (hsearch : search query fastStrategy.top_k = .ok docs) :
    ∃ r st', process_query sim search tStart tEnd st query uc = .ok (r, st') ∧
      lookupRM r "strategy" = some (.s "fast") ∧
      lookupRM r "source" = some (.s "RETRIEVAL") ∧
      lookupRM r "cost" = some (.q fastStrategy.estimated_cost) := by
  unfold process_query
  rw [hmerge]
  dsimp only
  obtain ⟨o, cache1, hX⟩ :
      ∃ o cache1, (if cfg.use_cache.truthy then SemanticCache.get sim tStart st.cache query
        else (Option.none, st.cache)) = (o, cache1) := ⟨_, _, rfl⟩
  rw [hX] at hmiss ⊢
  simp only at hmiss
  subst hmiss
  simp only
  rw [hover]
  simp only [if_true]
  rw [select_strategy_simple, hsearch]
  exact ⟨_, _, rfl, rfl, rfl, rfl⟩

/-- Witness for C8 at a concrete input: with a zero budget, the complex query
is executed with the "fast" strategy. -/
theorem C8_budget_downgrade_witness :
    ∃ r st', process_query simZero searchOne 0 1 st0 "compare a and b" (some ucBudget)
        = .ok (r, st') ∧
      lookupRM r "strategy" = some (.s "fast") ∧
      lookupRM r "source" = some (.s "RETRIEVAL") ∧
      lookupRM r "cost" = some (.q fastStrategy.estimated_cost) :=
  C8_budget_downgrade simZero searchOne 0 1 st0 "compare a and b" (some ucBudget)
    cfgBudget [docX]
    (by rfl)
    (by rfl)
    (by
      have hclass : (classify_query st0.memo "compare a and b").1 = "complex" := by decide
      rw [hclass]
      norm_num +decide [cvalGtCost, select_strategy, strategyTableGet,
        comprehensiveStrategy, prefOf, cfgBudget])
    (by rfl)

/-- The complete case analysis of one `process_query` run, given that the
config merge succeeds and the budget comparison is well-typed: the call
returns a result, which is a stamped cache-hit dict (with one "cache" metric
logged), a fallback dict (with no metric logged), or a retrieval dict (with
one "retrieval" metric logged). -/
theorem process_query_outcomes (sim : String → String → Rat)
    (search : String → Nat → Except String (List Doc)) (tStart tEnd : Rat)
    (st : OrchState) (query : String) (uc : Option (List (String × CVal)))
    (cfg : OrchestratorConfig)
    (hmerge : resolveConfig st.config uc = Except.ok cfg)
    (hnum : numericCVal cfg.max_cost_per_query = true) :
    ∃ r st', process_query sim search tStart tEnd st query uc = Except.ok (r, st') ∧
      ((∃ e bs, r = hitResult e bs ++ [("total_latency_ms", RVal.q ((tEnd - tStart) * 1000))] ∧
          ∃ m, st'.metrics = st.metrics ++ [m] ∧ m.source = "cache") ∨
       (∃ err, r = fallback_response query err ∧ st'.metrics = st.metrics) ∨
       (∃ ans docs conf strat lat cx, r = retrievalResult ans docs conf strat lat cx ∧
          ∃ m, st'.metrics = st.metrics ++ [m] ∧ m.source = "retrieval")) := by
  unfold process_query
  rw [hmerge]
  dsimp only
  obtain ⟨o, cache1, hX⟩ :
      ∃ o c, (if cfg.use_cache.truthy then SemanticCache.get sim tStart st.cache query
        else (Option.none, st.cache)) = (o, c) := ⟨_, _, rfl⟩
  rw [hX]
  cases o with
  | some cached =>
      have hsome : (SemanticCache.get sim tStart st.cache query).1 = some cached := by
        by_cases huc : cfg.use_cache.truthy = true
        · rw [if_pos huc] at hX
          rw [hX]
        · rw [if_neg huc] at hX
          simp at hX
      obtain ⟨e, bs, rfl⟩ := get_some_eq_hitResult sim tStart st.cache query cached hsome
      exact ⟨_, _, rfl, Or.inl ⟨e, bs, rfl, _, rfl, rfl⟩⟩
  | none =>
      have hbnd : ∃ bnd, cvalGtCost (select_strategy (classify_query st.memo query).1
          (prefOf cfg.default_strategy)).estimated_cost cfg.max_cost_per_query
          = Except.ok bnd := by
        cases hmc : cfg.max_cost_per_query with
        | q rv => exact ⟨_, rfl⟩
        | b bv => exact ⟨_, rfl⟩
        | s sv => rw [hmc] at hnum; simp [numericCVal] at hnum
        | none => rw [hmc] at hnum; simp [numericCVal] at hnum
      obtain ⟨bnd, hbnd⟩ := hbnd
      rw [hbnd]
      dsimp only
      cases bnd with
      | true =>
          rw [if_pos rfl]
          cases hs : search query (select_strategy "simple" Option.none).top_k with
          | error err =>
              exact ⟨_, _, rfl, Or.inr (Or.inl ⟨err, rfl, rfl⟩)⟩
          | ok docs =>
              exact ⟨_, _, rfl, Or.inr (Or.inr ⟨_, docs, _, _, _, _, rfl, _, rfl, rfl⟩)⟩
      | false =>
          rw [if_neg (by simp)]
          cases hs : search query (select_strategy (classify_query st.memo query).1
              (prefOf cfg.default_strategy)).top_k with
          | error err =>
              exact ⟨_, _, rfl, Or.inr (Or.inl ⟨err, rfl, rfl⟩)⟩
          | ok docs =>
              exact ⟨_, _, rfl, Or.inr (Or.inr ⟨_, docs, _, _, _, _, rfl, _, rfl, rfl⟩)⟩

/-- If a lookup has a known value it is present. -/
theorem isSome_of_lookup {r : ResultMap} {k : String} {v : RVal}
    (h : lookupRM r k = some v) : (lookupRM r k).isSome = true := by
  rw [h]
  rfl

/-- The complete case analysis of a run of `process_query` that returned a
result: the result is a stamped cache-hit dict with one "cache" metric
logged, a fallback dict with no metric logged, or a retrieval dict with one
"retrieval" metric logged. -/
theorem process_query_ok_cases (sim : String → String → Rat)
    (search : String → Nat → Except String (List Doc)) (tStart tEnd : Rat)
    (st : OrchState) (query : String) (uc : Option (List (String × CVal)))
    (r : ResultMap) (st' : OrchState)
    (h : process_query sim search tStart tEnd st query uc = Except.ok (r, st')) :
    (∃ e bs, r = hitResult e bs ++ [("total_latency_ms", RVal.q ((tEnd - tStart) * 1000))] ∧
       ∃ m, st'.metrics = st.metrics ++ [m] ∧ m.source = "cache") ∨
    (∃ err, r = fallback_response query err ∧ st'.metrics = st.metrics) ∨
    (∃ ans docs conf strat lat cx, r = retrievalResult ans docs conf strat lat cx ∧
       ∃ m, st'.metrics = st.metrics ++ [m] ∧ m.source = "retrieval") := by
  unfold process_query at h
  split at h
  · exact absurd h (by simp)
  next cfg heqc =>
    obtain ⟨o, cache1, hX⟩ :
        ∃ o c, (if cfg.use_cache.truthy then SemanticCache.get sim tStart st.cache query
          else (Option.none, st.cache)) = (o, c) := ⟨_, _, rfl⟩
    rw [hX] at h
    cases o with
    | some cached =>
        have hsome : (SemanticCache.get sim tStart st.cache query).1 = some cached := by
          by_cases huc : cfg.use_cache.truthy = true
          · rw [if_pos huc] at hX
            rw [hX]
          · rw [if_neg huc] at hX
            simp at hX
        obtain ⟨e, bs, rfl⟩ := get_some_eq_hitResult sim tStart st.cache query cached hsome
        simp only [Except.ok.injEq, Prod.mk.injEq] at h
        obtain ⟨h1, h2⟩ := h
        subst h1
        subst h2
        exact Or.inl ⟨e, bs, rfl, _, rfl, rfl⟩
    | none =>
        dsimp only at h
        split at h
        · exact absurd h (by simp)
        next over heqo =>
          split at h
          next err heqs =>
              simp only [Except.ok.injEq, Prod.mk.injEq] at h
              obtain ⟨h1, h2⟩ := h
              subst h1
              subst h2
              exact Or.inr (Or.inl ⟨err, rfl, rfl⟩)
          next docs heqs =>
              simp only [Except.ok.injEq, Prod.mk.injEq] at h
              obtain ⟨h1, h2⟩ := h
              subst h1
              subst h2
              exact Or.inr (Or.inr ⟨_, docs, _, _, _, _, rfl, _, rfl, rfl⟩)

/-- Counterexample to claim C1 as stated: a per-call override map with an
unrecognized key makes `process_query` raise (`OrchestratorConfig(**merged)`
raises `TypeError`), which propagates to the caller — no fallback result is
produced. -/
theorem C1_counterexample :
    process_query simZero searchOne 0 1 st0 "hello" (some [("bogus", CVal.b true)])
      = Except.error "TypeError: unexpected keyword argument bogus" := rfl

/-- Claim C1 (amended).  For every query and every per-call override map
whose keys are all recognized config fields and whose max-cost value is
numeric (so that the merged config is well-formed), `process_query` never
propagates an exception, whatever the search collaborator does: it returns a
result, and whenever that result is the fallback it carries confidence 0,
empty documents and an embedded error description.  Exceptions raised by the
config merge (unknown key) or by an ill-typed budget comparison DO propagate,
as the counterexample shows. -/
theorem C1_no_propagation (sim : String → String → Rat)
    (search : String → Nat → Except String (List Doc)) (tStart tEnd : Rat)
    (st : OrchState) (query : String) (uc : Option (List (String × CVal)))
    (cfg : OrchestratorConfig)
    (hmerge : resolveConfig st.config uc = Except.ok cfg)
    (hnum : numericCVal cfg.max_cost_per_query = true) :
    ∃ r st', process_query sim search tStart tEnd st query uc = Except.ok (r, st') ∧
      (lookupRM r "source" = some (RVal.s "FALLBACK") →
        lookupRM r "confidence" = some (RVal.q 0) ∧
        lookupRM r "documents" = some (RVal.docs []) ∧
        (lookupRM r "error").isSome = true) := by
  obtain ⟨r, st', hrun, hcases⟩ :=
    process_query_outcomes sim search tStart tEnd st query uc cfg hmerge hnum
  refine ⟨r, st', hrun, ?_⟩
  intro hsrc
  rcases hcases with ⟨e, bs, rfl, -⟩ | ⟨err, rfl, -⟩ | ⟨ans, docs, conf, strat, lat, cx, rfl, -⟩
  · rw [lookupRM_append_left (hitResult e bs)
      [("total_latency_ms", RVal.q ((tEnd - tStart) * 1000))] "source"
      (RVal.s "CACHE") rfl] at hsrc
    exact absurd hsrc (by decide)
  · exact ⟨rfl, rfl, rfl⟩
  · rw [show lookupRM (retrievalResult ans docs conf strat lat cx) "source"
        = some (RVal.s "RETRIEVAL") from rfl] at hsrc
    exact absurd hsrc (by decide)

/-- Witness for C1 (amended) at a concrete input: with no overrides and an
always-failing search backend, the call still returns a (fallback) result. -/
theorem C1_no_propagation_witness :
    ∃ r st', process_query simZero searchFail 0 1 st0 "hello" Option.none
        = Except.ok (r, st') ∧
      (lookupRM r "source" = some (RVal.s "FALLBACK") →
        lookupRM r "confidence" = some (RVal.q 0) ∧
        lookupRM r "documents" = some (RVal.docs []) ∧
        (lookupRM r "error").isSome = true) :=
  C1_no_propagation simZero searchFail 0 1 st0 "hello" Option.none
    defaultOrchestratorConfig rfl rfl

/-- A concrete complete run: default config, empty cache, failing search
backend; the call returns the fallback result and the state `stHi`. -/
theorem run_hi_fallback :
    process_query simZero searchFail 0 1 st0 "hi" Option.none
      = Except.ok (fallback_response "hi" "DB error", stHi) := by
  unfold process_query
  rw [show resolveConfig st0.config Option.none = Except.ok defaultOrchestratorConfig
      from rfl]
  dsimp only
  rw [show (if defaultOrchestratorConfig.use_cache.truthy then
        SemanticCache.get simZero 0 st0.cache "hi" else (Option.none, st0.cache))
      = ((Option.none : Option ResultMap), stHi.cache) from rfl]
  dsimp only
  have hclass : (classify_query st0.memo "hi").1 = "simple" := by decide
  have hcost : cvalGtCost (select_strategy (classify_query st0.memo "hi").1
      (prefOf defaultOrchestratorConfig.default_strategy)).estimated_cost
      defaultOrchestratorConfig.max_cost_per_query = Except.ok false := by
    rw [hclass]
    norm_num +decide [cvalGtCost, select_strategy, strategyTableGet, fastStrategy,
      prefOf, defaultOrchestratorConfig]
  rw [hcost]
  dsimp only
  rw [if_neg Bool.false_ne_true]
  rw [show searchFail "hi" (select_strategy (classify_query st0.memo "hi").1
      (prefOf defaultOrchestratorConfig.default_strategy)).top_k
      = Except.error "DB error" from rfl]
  rfl

/-- Counterexample to claim C2 as stated: the concrete fallback run returns a
FALLBACK result, yet the metrics log is left empty — no QueryMetric at all is
appended on the fallback path (the source logs only on the cache-hit and
retrieval paths). -/
theorem C2_counterexample :
    process_query simZero searchFail 0 1 st0 "hi" Option.none
      = Except.ok (fallback_response "hi" "DB error", stHi) ∧
    lookupRM (fallback_response "hi" "DB error") "source" = some (RVal.s "FALLBACK") ∧
    stHi.metrics = [] ∧ st0.metrics = [] :=
  ⟨run_hi_fallback, rfl, rfl, rfl⟩

/-- Claim C2 (amended).  For every call to `process_query` that returns a
result: if the result came from the cache, exactly one QueryMetric with
source "cache" is appended to the metrics log; if it came from retrieval,
exactly one with source "retrieval"; but on the fallback path NO metric is
appended — the log is unchanged. -/
theorem C2_metrics_logging (sim : String → String → Rat)
    (search : String → Nat → Except String (List Doc)) (tStart tEnd : Rat)
    (st : OrchState) (query : String) (uc : Option (List (String × CVal)))
    (r : ResultMap) (st' : OrchState)
    (h : process_query sim search tStart tEnd st query uc = Except.ok (r, st')) :
    (lookupRM r "source" = some (RVal.s "CACHE") →
       ∃ m, st'.metrics = st.metrics ++ [m] ∧ m.source = "cache") ∧
    (lookupRM r "source" = some (RVal.s "RETRIEVAL") →
       ∃ m, st'.metrics = st.metrics ++ [m] ∧ m.source = "retrieval") ∧
    (lookupRM r "source" = some (RVal.s "FALLBACK") → st'.metrics = st.metrics) := by
  rcases process_query_ok_cases sim search tStart tEnd st query uc r st' h with
    ⟨e, bs, rfl, m, hm, hms⟩ | ⟨err, rfl, hm⟩ | ⟨ans, docs, conf, strat, lat, cx, rfl, m, hm, hms⟩
  · refine ⟨fun _ => ⟨m, hm, hms⟩, ?_, ?_⟩
    · intro hsrc
      rw [lookupRM_append_left (hitResult e bs)
        [("total_latency_ms", RVal.q ((tEnd - tStart) * 1000))] "source"
        (RVal.s "CACHE") rfl] at hsrc
      exact absurd hsrc (by decide)
    · intro hsrc
      rw [lookupRM_append_left (hitResult e bs)
        [("total_latency_ms", RVal.q ((tEnd - tStart) * 1000))] "source"
        (RVal.s "CACHE") rfl] at hsrc
      exact absurd hsrc (by decide)
  · refine ⟨?_, ?_, fun _ => hm⟩
    · intro hsrc
      rw [show lookupRM (fallback_response query err) "source"
          = some (RVal.s "FALLBACK") from rfl] at hsrc
      exact absurd hsrc (by decide)
    · intro hsrc
      rw [show lookupRM (fallback_response query err) "source"
          = some (RVal.s "FALLBACK") from rfl] at hsrc
      exact absurd hsrc (by decide)
  · refine ⟨?_, fun _ => ⟨m, hm, hms⟩, ?_⟩
    · intro hsrc
      rw [show lookupRM (retrievalResult ans docs conf strat lat cx) "source"
          = some (RVal.s "RETRIEVAL") from rfl] at hsrc
      exact absurd hsrc (by decide)
    · intro hsrc
      rw [show lookupRM (retrievalResult ans docs conf strat lat cx) "source"
          = some (RVal.s "RETRIEVAL") from rfl] at hsrc
      exact absurd hsrc (by decide)

/-- Witness for C2 (amended) at the concrete fallback run. -/
theorem C2_metrics_logging_witness :
    (lookupRM (fallback_response "hi" "DB error") "source" = some (RVal.s "CACHE") →
       ∃ m, stHi.metrics = st0.metrics ++ [m] ∧ m.source = "cache") ∧
    (lookupRM (fallback_response "hi" "DB error") "source" = some (RVal.s "RETRIEVAL") →
       ∃ m, stHi.metrics = st0.metrics ++ [m] ∧ m.source = "retrieval") ∧
    (lookupRM (fallback_response "hi" "DB error") "source" = some (RVal.s "FALLBACK") →
       stHi.metrics = st0.metrics) :=
  C2_metrics_logging simZero searchFail 0 1 st0 "hi" Option.none
    (fallback_response "hi" "DB error") stHi run_hi_fallback

/-- Counterexample to claim C4 as stated: the concrete fallback run returns a
result that has no "complexity" key at all (the fallback dict omits the
complexity tier). -/
theorem C4_counterexample :
    lookupRM (fallback_response "hi" "DB error") "complexity" = Option.none ∧
    process_query simZero searchFail 0 1 st0 "hi" Option.none
      = Except.ok (fallback_response "hi" "DB error", stHi) :=
  ⟨rfl, run_hi_fallback⟩

/-- Claim C4 (amended).  Every result returned by `process_query` — cache
hit, retrieval and fallback alike — contains the fields answer, documents,
confidence, cost, latency_ms, source and strategy; the complexity tier is
present on cache-hit and retrieval results but absent from fallback results
(whose result is the only one without it). -/
theorem C4_result_fields (sim : String → String → Rat)
    (search : String → Nat → Except String (List Doc)) (tStart tEnd : Rat)
    (st : OrchState) (query : String) (uc : Option (List (String × CVal)))
    (r : ResultMap) (st' : OrchState)
    (h : process_query sim search tStart tEnd st query uc = Except.ok (r, st')) :
    (lookupRM r "answer").isSome = true ∧
    (lookupRM r "documents").isSome = true ∧
    (lookupRM r "confidence").isSome = true ∧
    (lookupRM r "cost").isSome = true ∧
    (lookupRM r "latency_ms").isSome = true ∧
    (lookupRM r "source").isSome = true ∧
    (lookupRM r "strategy").isSome = true ∧
    (lookupRM r "source" ≠ some (RVal.s "FALLBACK") →
      (lookupRM r "complexity").isSome = true) := by
  rcases process_query_ok_cases sim search tStart tEnd st query uc r st' h with
    ⟨e, bs, rfl, -⟩ | ⟨err, rfl, -⟩ | ⟨ans, docs, conf, strat, lat, cx, rfl, -⟩
  · exact ⟨isSome_of_lookup (lookupRM_append_left _ _ _ (RVal.s e.answer) rfl),
      isSome_of_lookup (lookupRM_append_left _ _ _ (RVal.docs e.documents) rfl),
      isSome_of_lookup (lookupRM_append_left _ _ _ (RVal.q e.confidence) rfl),
      isSome_of_lookup (lookupRM_append_left _ _ _ (RVal.q (1/10000)) rfl),
      isSome_of_lookup (lookupRM_append_left _ _ _ (RVal.q 5) rfl),
      isSome_of_lookup (lookupRM_append_left _ _ _ (RVal.s "CACHE") rfl),
      isSome_of_lookup (lookupRM_append_left _ _ _ (RVal.s e.strategy) rfl),
      fun _ => isSome_of_lookup (lookupRM_append_left _ _ _ (RVal.s e.complexity) rfl)⟩
  · refine ⟨rfl, rfl, rfl, rfl, rfl, rfl, rfl, ?_⟩
    intro hne
    exact absurd rfl hne
  · exact ⟨rfl, rfl, rfl, rfl, rfl, rfl, rfl, fun _ => rfl⟩

/-- Witness for C4 (amended) at the concrete fallback run. -/
theorem C4_result_fields_witness :
    (lookupRM (fallback_response "hi" "DB error") "answer").isSome = true ∧
    (lookupRM (fallback_response "hi" "DB error") "documents").isSome = true ∧
    (lookupRM (fallback_response "hi" "DB error") "confidence").isSome = true ∧
    (lookupRM (fallback_response "hi" "DB error") "cost").isSome = true ∧
    (lookupRM (fallback_response "hi" "DB error") "latency_ms").isSome = true ∧
    (lookupRM (fallback_response "hi" "DB error") "source").isSome = true ∧
    (lookupRM (fallback_response "hi" "DB error") "strategy").isSome = true ∧
    (lookupRM (fallback_response "hi" "DB error") "source" ≠ some (RVal.s "FALLBACK") →
      (lookupRM (fallback_response "hi" "DB error") "complexity").isSome = true) :=
  C4_result_fields simZero searchFail 0 1 st0 "hi" Option.none
    (fallback_response "hi" "DB error") stHi run_hi_fallback

end Maestro

